import Mathlib

/-!
# Verification of the Calculator engine (src/client/Components/Calculator.tsx)

Shallow embedding of the calculator state machine. JavaScript numbers are
modelled as exact extended rationals (`JsNum`): a finite rational, positive or
negative infinity, or NaN. This is faithful for every value the verified
claims exercise (small integers and terminating decimals, which IEEE doubles
represent exactly); double rounding itself is out of scope. The JS builtins
`Number(...)`, `String(...)` and `Number.prototype.toLocaleString` are
modelled on the fragment the engine can produce (decimal literals, the
`"Infinity"` / `"NaN"` sentinels); hexadecimal, exponent and whitespace forms
never arise. `-0` collapses to `0`, matching the observable display behaviour
(`String(-0) = "0"`, and `-0 === 0` in the division-by-zero guard).

The component's state and every transition (`clearAll`, `clearEntry`,
`inputDigit`, `inputDot`, `toggleSign`, `percent`, `compute`, `setOperator`,
`equals`, `onClear`) and the `formatForDisplay` helper are translated
branch-for-branch from the source. Button handlers only ever pass the digit
strings "0".."9", so `inputDigit` takes a `Fin 10`.
-/

namespace Calculator

/-- The source's `Operator` type: the strings "+", "-", "×", "÷". -/
inductive Operator where
  | add
  | sub
  | mul
  | div
deriving DecidableEq, Repr

/-- A JavaScript number: an exact finite rational, an infinity, or NaN. -/
inductive JsNum where
  | finite (q : ℚ)
  | posInf
  | negInf
  | nan
deriving DecidableEq, Repr

/-- The JS `Number.isFinite` test. -/
def JsNum.isFinite : JsNum → Bool
  | .finite _ => true
  | _ => false

/-- Exact rational addition, written through `mkRat` so concrete states
evaluate by kernel reduction; `ratAdd_eq` identifies it with `+`. -/
def ratAdd (a b : ℚ) : ℚ := mkRat (a.num * b.den + b.num * a.den) (a.den * b.den)

/-- Exact rational subtraction; `ratSub_eq` identifies it with `-`. -/
def ratSub (a b : ℚ) : ℚ := mkRat (a.num * b.den - b.num * a.den) (a.den * b.den)

/-- Exact rational multiplication; `ratMul_eq` identifies it with `*`. -/
def ratMul (a b : ℚ) : ℚ := mkRat (a.num * b.num) (a.den * b.den)

/-- Exact rational division; `ratDiv_eq` identifies it with `/`. -/
def ratDiv (a b : ℚ) : ℚ :=
  if b.num < 0 then mkRat (-(a.num * b.den)) (a.den * b.num.natAbs)
  else mkRat (a.num * b.den) (a.den * b.num.natAbs)

/-- The rational `10 ^ k`. -/
def pow10 (k : Nat) : ℚ := mkRat ((10 : Nat) ^ k : Nat) 1

/-- JS unary minus. -/
def jsNeg : JsNum → JsNum
  | .finite q => .finite (-q)
  | .posInf => .negInf
  | .negInf => .posInf
  | .nan => .nan

/-- JS `+` on numbers. -/
def jsAdd : JsNum → JsNum → JsNum
  | .finite a, .finite b => .finite (ratAdd a b)
  | .nan, _ => .nan
  | _, .nan => .nan
  | .posInf, .negInf => .nan
  | .negInf, .posInf => .nan
  | .posInf, _ => .posInf
  | _, .posInf => .posInf
  | .negInf, _ => .negInf
  | _, .negInf => .negInf

/-- JS `-` on numbers (`a - b = a + (-b)`). -/
def jsSub (a b : JsNum) : JsNum := jsAdd a (jsNeg b)

/-- JS `*` on numbers. -/
def jsMul : JsNum → JsNum → JsNum
  | .finite a, .finite b => .finite (ratMul a b)
  | .nan, _ => .nan
  | _, .nan => .nan
  | .posInf, .posInf => .posInf
  | .posInf, .negInf => .negInf
  | .negInf, .posInf => .negInf
  | .negInf, .negInf => .posInf
  | .posInf, .finite b => if b = 0 then .nan else if 0 < b then .posInf else .negInf
  | .finite a, .posInf => if a = 0 then .nan else if 0 < a then .posInf else .negInf
  | .negInf, .finite b => if b = 0 then .nan else if 0 < b then .negInf else .posInf
  | .finite a, .negInf => if a = 0 then .nan else if 0 < a then .negInf else .posInf

/-- JS `/` on numbers (sign-of-zero subtleties collapse: `x / 0` with `x > 0`
gives `posInf`, `0 / 0` gives NaN). -/
def jsDiv : JsNum → JsNum → JsNum
  | .nan, _ => .nan
  | _, .nan => .nan
  | .posInf, .posInf => .nan
  | .posInf, .negInf => .nan
  | .negInf, .posInf => .nan
  | .negInf, .negInf => .nan
  | .posInf, .finite b => if 0 ≤ b then .posInf else .negInf
  | .negInf, .finite b => if 0 ≤ b then .negInf else .posInf
  | .finite _, .posInf => .finite 0
  | .finite _, .negInf => .finite 0
  | .finite a, .finite b =>
      if b = 0 then (if a = 0 then .nan else if 0 < a then .posInf else .negInf)
      else .finite (ratDiv a b)

/-- The character for a decimal digit value. -/
def digitChar (n : Nat) : Char := Char.ofNat (48 + n)

/-- Is the character one of '0'..'9'. -/
def isDigitChar (c : Char) : Bool := 48 ≤ c.toNat && c.toNat ≤ 57

/-- Numeric value of a decimal digit character. -/
def digitToNat (c : Char) : Nat := c.toNat - 48

/-- Value of a big-endian list of decimal digit characters. -/
def parseNatChars (cs : List Char) : Nat :=
  cs.foldl (fun a c => a * 10 + digitToNat c) 0

/-- Decimal-literal fragment of JS number parsing: `digits`, `digits.digits`,
`.digits`, `digits.` (at least one digit overall); anything else is `none`. -/
def parseDecChars (cs : List Char) : Option ℚ :=
  let intPart := cs.takeWhile (fun c => c ≠ '.')
  let rest := cs.dropWhile (fun c => c ≠ '.')
  if ¬ intPart.all isDigitChar then none
  else
    match rest with
    | [] => if intPart = [] then none else some (parseNatChars intPart)
    | '.' :: frac =>
        if ¬ frac.all isDigitChar then none
        else if intPart = [] ∧ frac = [] then none
        else some (ratAdd (parseNatChars intPart : ℚ)
                   (ratDiv (parseNatChars frac : ℚ) (pow10 frac.length)))
    | _ => none

/-- Modelled JS builtin `Number(s)` on the strings the engine produces:
`""` is 0, the `Infinity`/`NaN` sentinels, optionally signed decimal
literals; everything else is NaN. -/
def jsNumber (s : String) : JsNum :=
  if s.data = [] then .finite 0
  else if s = "Infinity" ∨ s = "+Infinity" then .posInf
  else if s = "-Infinity" then .negInf
  else
    let signBody : Bool × List Char :=
      match s.data with
      | '-' :: rest => (true, rest)
      | '+' :: rest => (false, rest)
      | cs => (false, cs)
    match parseDecChars signBody.2 with
    | some q => .finite (if signBody.1 then -q else q)
    | none => .nan

/-- Big-endian decimal digits of `n`, prepended to `acc`; `fuel ≥ number of
digits` suffices (callers pass `n` itself). -/
def natToStrGo : Nat → Nat → List Char → List Char
  | 0, _, acc => acc
  | fuel + 1, n, acc =>
      if n = 0 then acc else natToStrGo fuel (n / 10) (digitChar (n % 10) :: acc)

/-- Decimal string of a natural number. -/
def natToStr (n : Nat) : String :=
  if n = 0 then "0" else ⟨natToStrGo n n []⟩

/-- Floor of a nonnegative rational, as a natural number. -/
def intFloorNN (q : ℚ) : Nat := q.num.toNat / q.den

/-- Least `k ≤ 20` such that `q * 10 ^ k` is an integer, when one exists. -/
def decExp (q : ℚ) : Option Nat :=
  (List.range 21).find? (fun k => (ratMul q (pow10 k)).den = 1)

/-- Left-pad with '0' to length `k`. -/
def padLeft (cs : List Char) (k : Nat) : List Char :=
  List.replicate (k - cs.length) '0' ++ cs

/-- Decimal string of a nonnegative rational: integer part, and if needed a
'.' and the fractional digits (exact when the expansion terminates within 20
digits, truncated to 20 otherwise). -/
def ratToStringNN (q : ℚ) : String :=
  let k := (decExp q).getD 20
  let ip := natToStr (intFloorNN q)
  if k = 0 then ip
  else
    let fr := intFloorNN (ratMul (ratSub q (intFloorNN q : ℚ)) (pow10 k))
    ip ++ "." ++ ⟨padLeft (natToStr fr).data k⟩

/-- Decimal string of a rational, with sign. -/
def ratToString (q : ℚ) : String :=
  if q < 0 then "-" ++ ratToStringNN (-q) else ratToStringNN q

/-- Modelled JS builtin `String(n)` on numbers: shortest exact decimal for
the terminating values the engine reaches, and the `"Infinity"` / `"NaN"`
sentinels for the non-finite ones. -/
def jsToString : JsNum → String
  | .finite q => ratToString q
  | .posInf => "Infinity"
  | .negInf => "-Infinity"
  | .nan => "NaN"

/-- Group a reversed digit list in threes (least-significant first). -/
def group3Rev : List Char → List Char
  | c1 :: c2 :: c3 :: c4 :: rest => c1 :: c2 :: c3 :: ',' :: group3Rev (c4 :: rest)
  | cs => cs

/-- Insert thousands separators into a big-endian digit list. -/
def group3 (cs : List Char) : List Char := (group3Rev cs.reverse).reverse

/-- Round a nonnegative rational to the nearest natural (half up). -/
def roundNN (q : ℚ) : Nat := intFloorNN (ratAdd q (mkRat 1 2))

/-- Modelled JS builtin `Number.prototype.toLocaleString` (en-US defaults):
thousands grouping on the integer part, the fraction rounded to at most
three digits with trailing zeros dropped, infinities as the symbol. -/
def toLocaleString : JsNum → String
  | .nan => "NaN"
  | .posInf => "∞"
  | .negInf => "-∞"
  | .finite q =>
      let r := roundNN (ratMul |q| (mkRat 1000 1))
      let ipStr := natToStr (r / 1000)
      let frDigits :=
        ((padLeft (natToStr (r % 1000)).data 3).reverse.dropWhile (fun c => c = '0')).reverse
      (if q < 0 then "-" else "") ++ ⟨group3 ipStr.data⟩ ++
        (if frDigits = [] then "" else "." ++ ⟨frDigits⟩)

/-- The source's `formatForDisplay`: non-finite sentinels pass through,
an integer display is locale-grouped, a dotted display has its integer part
grouped and its fraction preserved verbatim (`value.split(".")`
destructured as `[int, dec]`). -/
def formatForDisplay (value : String) : String :=
  if value = "∞" ∨ value = "NaN" then value
  else if ¬ ('.' ∈ value.data) then
    let n := jsNumber value
    if n.isFinite = false then value else toLocaleString n
  else
    let int := value.data.takeWhile (fun c => c ≠ '.')
    let dec := (value.data.dropWhile (fun c => c ≠ '.')).tail.takeWhile (fun c => c ≠ '.')
    let n := jsNumber ⟨int⟩
    let intPart := if n.isFinite then toLocaleString n else (⟨int⟩ : String)
    intPart ++ "." ++ ⟨dec⟩

/-- The source's `CalcState` record. -/
structure CalcState where
  display : String
  accumulator : Option JsNum
  operator : Option Operator
  waitingForSecond : Bool
  lastOp : Option Operator
  lastArg : Option JsNum
deriving DecidableEq, Repr

/-- The initial state installed by `useState`. -/
def initialState : CalcState :=
  { display := "0", accumulator := none, operator := none,
    waitingForSecond := false, lastOp := none, lastArg := none }

/-- The source's `display.replace(/,/g, "")`. -/
def stripCommas (s : String) : String := ⟨s.data.filter (fun c => c ≠ ',')⟩

/-- The JS `value.includes(c)` membership test. -/
def includes (s : String) (c : Char) : Bool := decide (c ∈ s.data)

/-- The digit string "0".."9" passed by a digit button. -/
def digitStr (d : Fin 10) : String := ⟨[digitChar d.val]⟩

/-- The source's `clearAll`: reset every field to its default. -/
def clearAll : CalcState := initialState

/-- The source's `clearEntry`: display "0", `waitingForSecond` iff an operator is
pending, all other fields kept. -/
def clearEntry (s : CalcState) : CalcState :=
  { s with display := "0", waitingForSecond := s.operator.isSome }

/-- The source's `inputDigit`. -/
def inputDigit (d : Fin 10) (s : CalcState) : CalcState :=
  if s.waitingForSecond then { s with display := digitStr d, waitingForSecond := false }
  else if s.display = "0" then { s with display := digitStr d }
  else if 12 ≤ (stripCommas s.display).length then s
  else { s with display := s.display ++ digitStr d }

/-- The source's `inputDot`. -/
def inputDot (s : CalcState) : CalcState :=
  if s.waitingForSecond then { s with display := "0.", waitingForSecond := false }
  else if includes s.display '.' then s
  else { s with display := s.display ++ "." }

/-- The source's `toggleSign` (`raw.slice(1)` drops the leading '-'). -/
def toggleSign (s : CalcState) : CalcState :=
  let raw := stripCommas s.display
  if raw = "0" then s
  else
    match raw.data with
    | '-' :: rest => { s with display := ⟨rest⟩ }
    | _ => { s with display := "-" ++ raw }

/-- The source's `percent`: contextual for a pending add/subtract with an accumulator,
plain divide-by-100 otherwise; no-op on a non-finite display value. -/
def percent (s : CalcState) : CalcState :=
  let raw := jsNumber (stripCommas s.display)
  if raw.isFinite = false then s
  else
    match s.accumulator, s.operator with
    | some a, some op =>
        if op = .add ∨ op = .sub then
          { s with display := jsToString (jsDiv (jsMul a raw) (.finite 100)) }
        else
          { s with display := jsToString (jsDiv raw (.finite 100)) }
    | _, _ => { s with display := jsToString (jsDiv raw (.finite 100)) }

/-- The source's `compute`: the four operators, with `b === 0` under division giving the
positive-infinity sentinel. -/
def compute (a b : JsNum) (op : Operator) : JsNum :=
  match op with
  | .add => jsAdd a b
  | .sub => jsSub a b
  | .mul => jsMul a b
  | .div => if b = .finite 0 then .posInf else jsDiv a b

/-- The source's `setOperator`. -/
def setOperator (op : Operator) (s : CalcState) : CalcState :=
  let b := jsNumber (stripCommas s.display)
  match s.operator, s.waitingForSecond, s.accumulator with
  | some pending, false, some a =>
      let res := compute a b pending
      { display := jsToString res, accumulator := some res, operator := some op,
        waitingForSecond := true, lastOp := none, lastArg := none }
  | _, _, _ =>
      { s with
          accumulator := some b
          operator := some op
          waitingForSecond := true
          lastOp := none
          lastArg := none }

/-- The source's `equals`. -/
def equals (s : CalcState) : CalcState :=
  let b := jsNumber (stripCommas s.display)
  match s.operator, s.accumulator, s.waitingForSecond with
  | some op, some a, false =>
      let res := compute a b op
      { display := jsToString res, accumulator := some res, operator := none,
        waitingForSecond := false, lastOp := some op, lastArg := some b }
  | _, _, _ =>
      match s.lastOp, s.lastArg with
      | some lop, some larg =>
          let res := compute b larg lop
          { s with display := jsToString res, accumulator := some res }
      | _, _ => s

/-- The source's `onClear`: clear-entry when dirty, clear-all when clean. -/
def onClear (s : CalcState) : CalcState :=
  if s.display ≠ "0" ∨ s.accumulator ≠ none ∨ s.operator ≠ none then clearEntry s
  else clearAll

/-- The discrete input events of §6. -/
inductive Event where
  | digit (d : Fin 10)
  | dot
  | sign
  | pct
  | op (o : Operator)
  | eq
  | clear
deriving DecidableEq, Repr

/-- Dispatch one input event. -/
def step (e : Event) (s : CalcState) : CalcState :=
  match e with
  | .digit d => inputDigit d s
  | .dot => inputDot s
  | .sign => toggleSign s
  | .pct => percent s
  | .op o => setOperator o s
  | .eq => equals s
  | .clear => onClear s

/-- Run an event sequence from the initial state. -/
def run (es : List Event) : CalcState :=
  es.foldl (fun s e => step e s) initialState

/-- Number of decimal points in a display string. -/
def dotCount (s : String) : Nat := s.data.count '.'

/-! ## Helper lemmas -/

theorem den_int_ne_zero (a : ℚ) : (a.den : ℤ) ≠ 0 := by
  exact_mod_cast a.den_nz

theorem ratAdd_eq (a b : ℚ) : ratAdd a b = a + b := by
  rw [ratAdd, Rat.mkRat_eq_divInt]
  push_cast
  rw [← Rat.divInt_add_divInt a.num b.num (den_int_ne_zero a) (den_int_ne_zero b),
    Rat.num_divInt_den, Rat.num_divInt_den]

theorem ratSub_eq (a b : ℚ) : ratSub a b = a - b := by
  rw [ratSub, Rat.mkRat_eq_divInt]
  push_cast
  rw [← Rat.divInt_sub_divInt a.num b.num (den_int_ne_zero a) (den_int_ne_zero b),
    Rat.num_divInt_den, Rat.num_divInt_den]

theorem ratMul_eq (a b : ℚ) : ratMul a b = a * b := by
  rw [ratMul, Rat.mkRat_eq_divInt]
  push_cast
  rw [← Rat.divInt_mul_divInt' a.num a.den b.num b.den,
    Rat.num_divInt_den, Rat.num_divInt_den]

theorem ratDiv_eq (a b : ℚ) : ratDiv a b = a / b := by
  rw [ratDiv]
  rcases lt_or_le b.num 0 with h | h
  · rw [if_pos h, Rat.mkRat_eq_divInt]
    push_cast [Int.natCast_natAbs]
    rw [abs_of_neg h, mul_neg, Rat.neg_divInt_neg, ← Rat.div_def']
  · rw [if_neg (not_lt.mpr h), Rat.mkRat_eq_divInt]
    push_cast [Int.natCast_natAbs]
    rw [abs_of_nonneg h, ← Rat.div_def']

theorem data_append (s t : String) : (s ++ t).data = s.data ++ t.data := rfl

theorem digitChar_ne_dot (k : Nat) (h : k < 10) : digitChar k ≠ '.' := by
  interval_cases k <;> decide

theorem natToStrGo_no_dot (fuel : Nat) :
    ∀ n acc, '.' ∉ acc → '.' ∉ natToStrGo fuel n acc := by
  induction fuel with
  | zero => intro n acc h; simpa [natToStrGo] using h
  | succ f ih =>
      intro n acc h
      unfold natToStrGo
      split
      · exact h
      · refine ih _ _ ?_
        intro hmem
        rcases List.mem_cons.mp hmem with h1 | h1
        · exact digitChar_ne_dot _ (Nat.mod_lt _ (by norm_num)) h1.symm
        · exact h h1

theorem natToStr_no_dot (n : Nat) : '.' ∉ (natToStr n).data := by
  unfold natToStr
  split
  · decide
  · exact natToStrGo_no_dot n n [] (by simp)

theorem padLeft_no_dot (cs : List Char) (k : Nat) (h : '.' ∉ cs) :
    '.' ∉ padLeft cs k := by
  unfold padLeft
  intro hmem
  rcases List.mem_append.mp hmem with h1 | h1
  · exact absurd (List.eq_of_mem_replicate h1) (by decide)
  · exact h h1

theorem dotCount_append (s t : String) : dotCount (s ++ t) = dotCount s + dotCount t := by
  simp [dotCount, data_append, List.count_append]

theorem dotCount_natToStr (n : Nat) : dotCount (natToStr n) = 0 :=
  List.count_eq_zero.mpr (natToStr_no_dot n)

theorem dotCount_mk_padLeft (cs : List Char) (k : Nat) (h : '.' ∉ cs) :
    dotCount (String.mk (padLeft cs k)) = 0 :=
  List.count_eq_zero.mpr (padLeft_no_dot cs k h)

theorem ratToStringNN_dots (q : ℚ) : dotCount (ratToStringNN q) ≤ 1 := by
  simp only [ratToStringNN]
  split
  · simp [dotCount_natToStr]
  · rw [dotCount_append, dotCount_append, dotCount_natToStr,
      dotCount_mk_padLeft _ _ (natToStr_no_dot _)]
    decide

theorem ratToString_dots (q : ℚ) : dotCount (ratToString q) ≤ 1 := by
  unfold ratToString
  split
  · simpa [dotCount, data_append] using ratToStringNN_dots (-q)
  · exact ratToStringNN_dots q

theorem jsToString_dots (v : JsNum) : dotCount (jsToString v) ≤ 1 := by
  cases v with
  | finite q => exact ratToString_dots q
  | posInf => decide
  | negInf => decide
  | nan => decide

theorem dotCount_digitStr (d : Fin 10) : dotCount (digitStr d) = 0 := by
  have h := digitChar_ne_dot d.val d.isLt
  simp [dotCount, digitStr, List.count_cons, h]

theorem dotCount_stripCommas_le (s : String) : dotCount (stripCommas s) ≤ dotCount s :=
  (List.filter_sublist s.data).count_le '.'

theorem inputDigit_dots (d : Fin 10) (s : CalcState) (h : dotCount s.display ≤ 1) :
    dotCount (inputDigit d s).display ≤ 1 := by
  unfold inputDigit
  split_ifs
  · simp [dotCount_digitStr]
  · simp [dotCount_digitStr]
  · exact h
  · simpa [dotCount_append, dotCount_digitStr] using h

theorem inputDot_dots (s : CalcState) (h : dotCount s.display ≤ 1) :
    dotCount (inputDot s).display ≤ 1 := by
  unfold inputDot
  split_ifs with h1 h2
  · show dotCount ("0." : String) ≤ 1
    decide
  · exact h
  · have h0 : dotCount s.display = 0 := by
      have : ¬ ('.' ∈ s.display.data) := by
        simpa [includes] using h2
      simpa [dotCount] using List.count_eq_zero.mpr this
    simp [dotCount_append, h0]
    decide

theorem toggleSign_dots (s : CalcState) (h : dotCount s.display ≤ 1) :
    dotCount (toggleSign s).display ≤ 1 := by
  simp only [toggleSign]
  split
  · exact h
  · split
    · rename_i rest heq
      show List.count '.' rest ≤ 1
      have h2 : List.count '.' rest ≤ dotCount (stripCommas s.display) := by
        rw [dotCount, heq, List.count_cons]
        exact Nat.le_add_right _ _
      exact le_trans h2 (le_trans (dotCount_stripCommas_le s.display) h)
    · show dotCount ("-" ++ stripCommas s.display) ≤ 1
      rw [dotCount_append]
      have h0 : dotCount "-" = 0 := by decide
      rw [h0, Nat.zero_add]
      exact le_trans (dotCount_stripCommas_le s.display) h

theorem percent_dots (s : CalcState) (h : dotCount s.display ≤ 1) :
    dotCount (percent s).display ≤ 1 := by
  simp only [percent]
  split_ifs
  · exact h
  · split
    · split
      · exact jsToString_dots _
      · exact jsToString_dots _
    · exact jsToString_dots _

theorem setOperator_dots (op : Operator) (s : CalcState) (h : dotCount s.display ≤ 1) :
    dotCount (setOperator op s).display ≤ 1 := by
  simp only [setOperator]
  split
  · exact jsToString_dots _
  · exact h

theorem equals_dots (s : CalcState) (h : dotCount s.display ≤ 1) :
    dotCount (equals s).display ≤ 1 := by
  simp only [equals]
  split
  · exact jsToString_dots _
  · split
    · exact jsToString_dots _
    · exact h

theorem onClear_dots (s : CalcState) :
    dotCount (onClear s).display ≤ 1 := by
  unfold onClear
  split
  · simp [clearEntry]
    decide
  · decide

theorem step_dots (e : Event) (s : CalcState) (h : dotCount s.display ≤ 1) :
    dotCount (step e s).display ≤ 1 := by
  cases e with
  | digit d => exact inputDigit_dots d s h
  | dot => exact inputDot_dots s h
  | sign => exact toggleSign_dots s h
  | pct => exact percent_dots s h
  | op o => exact setOperator_dots o s h
  | eq => exact equals_dots s h
  | clear => exact onClear_dots s

theorem foldl_step_dots (es : List Event) :
    ∀ s : CalcState, dotCount s.display ≤ 1 →
      dotCount (es.foldl (fun s e => step e s) s).display ≤ 1 := by
  induction es with
  | nil => intro s h; simpa using h
  | cons e es ih => intro s h; exact ih (step e s) (step_dots e s h)

/-! ## Claim theorems -/

/-- C8: for every state, `chooseOperator(op)` followed immediately by
`evaluate()` with no intervening digit input leaves the state produced by
`chooseOperator` unchanged: `setOperator` always sets `waitingForSecond`,
which guards the main `equals` branch, and clears `lastOp`/`lastArg`, so
the repeat-equals branch cannot fire either. -/
theorem setOperator_then_equals_noop (s : CalcState) (op : Operator) :
    equals (setOperator op s) = setOperator op s ∧
    (setOperator op s).waitingForSecond = true ∧
    (setOperator op s).lastOp = none ∧
    (setOperator op s).lastArg = none := by
  obtain ⟨d, acc, opr, w, lo, la⟩ := s
  cases opr <;> cases acc <;> cases w <;> exact ⟨rfl, rfl, rfl, rfl⟩

/-- C9: in every state reachable from the initial state by any sequence of
input events, the display string contains at most one decimal point, and
`inputDot` is idempotent: two consecutive calls produce the same state
(hence the same display) as one. -/
theorem display_at_most_one_dot :
    (∀ es : List Event, dotCount (run es).display ≤ 1) ∧
    (∀ s : CalcState, inputDot (inputDot s) = inputDot s) := by
  constructor
  · intro es
    exact foldl_step_dots es initialState (by decide)
  · intro s
    by_cases hw : s.waitingForSecond
    · have h1 : inputDot s = { s with display := "0.", waitingForSecond := false } := by
        unfold inputDot
        rw [if_pos hw]
      rw [h1]
      rfl
    · by_cases hi : includes s.display '.'
      · have h1 : inputDot s = s := by
          unfold inputDot
          rw [if_neg hw, if_pos hi]
        rw [h1, h1]
      · have h1 : inputDot s = { s with display := s.display ++ "." } := by
          unfold inputDot
          rw [if_neg hw, if_neg hi]
        rw [h1]
        have hdot : includes (s.display ++ ".") '.' = true := by
          simp [includes, data_append]
        unfold inputDot
        rw [if_neg hw, if_pos hdot]

/-- C10: the clear-entry branch of `clear()` changes only `display` (to "0")
and `waitingForSecond` (to whether an operator is pending); `accumulator`,
`operator`, `lastOp` and `lastArg` survive, `clear()` in any dirty state is
exactly this branch, and pressing equals right after a clear-entry with no
operator pending applies the recorded `lastOp`/`lastArg` to the cleared
display value 0. -/
theorem clearEntry_frame (s : CalcState) :
    ((clearEntry s).accumulator = s.accumulator ∧
     (clearEntry s).operator = s.operator ∧
     (clearEntry s).lastOp = s.lastOp ∧
     (clearEntry s).lastArg = s.lastArg ∧
     (clearEntry s).display = "0" ∧
     (clearEntry s).waitingForSecond = s.operator.isSome) ∧
    ((s.display ≠ "0" ∨ s.accumulator ≠ none ∨ s.operator ≠ none) →
      onClear s = clearEntry s) ∧
    (∀ lop larg, s.operator = none → s.lastOp = some lop → s.lastArg = some larg →
      equals (clearEntry s) =
        { s with
            display := jsToString (compute (.finite 0) larg lop)
            accumulator := some (compute (.finite 0) larg lop)
            waitingForSecond := false }) := by
  refine ⟨⟨rfl, rfl, rfl, rfl, rfl, rfl⟩, ?_, ?_⟩
  · intro hd
    unfold onClear
    rw [if_pos hd]
  · intro lop larg hop hlo hla
    obtain ⟨d, acc, opr, w, lo, la⟩ := s
    subst hop hlo hla
    rfl

/-- C10 witness: concretely, after `5`, `+`, `3`, `=` a clear-entry followed
by equals applies `+ 3` to the cleared display value 0. -/
theorem clearEntry_frame_witness :
    equals (clearEntry (run [.digit 5, .op .add, .digit 3, .eq])) =
      { run [.digit 5, .op .add, .digit 3, .eq] with
          display := jsToString (compute (.finite 0) (.finite 3) .add)
          accumulator := some (compute (.finite 0) (.finite 3) .add)
          waitingForSecond := false } :=
  (clearEntry_frame (run [.digit 5, .op .add, .digit 3, .eq])).2.2 .add (.finite 3)
    (by decide) (by decide) (by decide)

/-- C5: operator chaining evaluates strictly left-to-right with no
precedence: `2`, `+`, `3`, `×`, `4`, `=` displays 20, and choosing a new
operator while one is pending, an accumulator exists and `waitingForSecond`
is false first evaluates the pending operation and stores the result as the
new accumulator. -/
theorem chained_evaluation (s : CalcState) (newOp pending : Operator) (a : JsNum)
    (h1 : s.operator = some pending) (h2 : s.waitingForSecond = false)
    (h3 : s.accumulator = some a) :
    (run [.digit 2, .op .add, .digit 3, .op .mul, .digit 4, .eq]).display = "20" ∧
    setOperator newOp s =
      { display := jsToString (compute a (jsNumber (stripCommas s.display)) pending)
        accumulator := some (compute a (jsNumber (stripCommas s.display)) pending)
        operator := some newOp
        waitingForSecond := true
        lastOp := none
        lastArg := none } := by
  refine ⟨by decide, ?_⟩
  obtain ⟨d, acc, opr, w, lo, la⟩ := s
  subst h1 h2 h3
  rfl

/-- C5 witness: the general branch applied at the concrete state reached by
`2`, `+`, `3`. -/
theorem chained_evaluation_witness :
    (run [.digit 2, .op .add, .digit 3, .op .mul, .digit 4, .eq]).display = "20" :=
  (chained_evaluation (run [.digit 2, .op .add, .digit 3]) .mul .add (.finite 2)
    (by decide) (by decide) (by decide)).1

/-- C6: repeat-equals: `5`, `+`, `3`, `=` displays 8, further equals presses
display 11 and 14, and in general an equals press with no pending operator
but a recorded `lastOp`/`lastArg` applies them to the current display value
and leaves `lastOp`/`lastArg` unchanged. -/
theorem repeat_equals (s : CalcState) (lop : Operator) (larg : JsNum)
    (h1 : s.operator = none) (h2 : s.lastOp = some lop) (h3 : s.lastArg = some larg) :
    ((run [.digit 5, .op .add, .digit 3, .eq]).display = "8" ∧
     (run [.digit 5, .op .add, .digit 3, .eq, .eq]).display = "11" ∧
     (run [.digit 5, .op .add, .digit 3, .eq, .eq, .eq]).display = "14") ∧
    equals s =
      { s with
          display := jsToString (compute (jsNumber (stripCommas s.display)) larg lop)
          accumulator := some (compute (jsNumber (stripCommas s.display)) larg lop) } := by
  refine ⟨⟨by decide, by decide, by decide⟩, ?_⟩
  obtain ⟨d, acc, opr, w, lo, la⟩ := s
  subst h1 h2 h3
  rfl

/-- C6 witness: the repeat branch applied at the concrete state reached by
`5`, `+`, `3`, `=`. -/
theorem repeat_equals_witness :
    equals (run [.digit 5, .op .add, .digit 3, .eq]) =
      { run [.digit 5, .op .add, .digit 3, .eq] with
          display := jsToString (compute
            (jsNumber (stripCommas (run [.digit 5, .op .add, .digit 3, .eq]).display))
            (.finite 3) .add)
          accumulator := some (compute
            (jsNumber (stripCommas (run [.digit 5, .op .add, .digit 3, .eq]).display))
            (.finite 3) .add) } :=
  (repeat_equals (run [.digit 5, .op .add, .digit 3, .eq]) .add (.finite 3)
    (by decide) (by decide) (by decide)).2

/-- C1 counterexample: after `5`, `+`, one `clear()` and a second `clear()`,
the accumulator still holds 5, so the second `clear()` did not reset every
field to its initial default. -/
theorem clear_second_press_cex :
    (run [.digit 5, .op .add, .clear, .clear]).accumulator = some (.finite 5) ∧
    run [.digit 5, .op .add, .clear, .clear] ≠ initialState := by
  exact ⟨by decide, by decide⟩

/-- C1 (amended): from a clean state (display "0", no accumulator, no
operator) `clear()` is the full reset; from a dirty state one `clear()` sets
the display to "0" preserving accumulator and operator, with
`waitingForSecond` set exactly when an operator is pending; a second
`clear()` performs the full reset only when neither an accumulator nor an
operator survived the first, and otherwise remains a clear-entry no-op. -/
theorem clear_context_sensitive (s : CalcState) :
    (s.display = "0" ∧ s.accumulator = none ∧ s.operator = none →
      onClear s = initialState) ∧
    (¬ (s.display = "0" ∧ s.accumulator = none ∧ s.operator = none) →
      onClear s = { s with display := "0", waitingForSecond := s.operator.isSome }) ∧
    (s.display ≠ "0" → s.accumulator = none → s.operator = none →
      onClear (onClear s) = initialState) ∧
    (¬ (s.display = "0" ∧ s.accumulator = none ∧ s.operator = none) →
      (s.accumulator ≠ none ∨ s.operator ≠ none) →
      onClear (onClear s) = onClear s) := by
  refine ⟨?_, ?_, ?_, ?_⟩
  · intro h
    have hc : ¬ (s.display ≠ "0" ∨ s.accumulator ≠ none ∨ s.operator ≠ none) := by
      push_neg
      exact h
    unfold onClear
    rw [if_neg hc]
    rfl
  · intro hcl
    have hc : s.display ≠ "0" ∨ s.accumulator ≠ none ∨ s.operator ≠ none := by
      by_contra hno
      push_neg at hno
      exact hcl hno
    unfold onClear
    rw [if_pos hc]
    rfl
  · intro h1 h2 h3
    have e1 : onClear s = clearEntry s := by
      unfold onClear
      rw [if_pos (Or.inl h1)]
    rw [e1]
    have hc2 : ¬ ((clearEntry s).display ≠ "0" ∨ (clearEntry s).accumulator ≠ none ∨
        (clearEntry s).operator ≠ none) := by
      push_neg
      exact ⟨rfl, by simpa [clearEntry] using h2, by simpa [clearEntry] using h3⟩
    unfold onClear
    rw [if_neg hc2]
    rfl
  · intro hcl hao
    have hc : s.display ≠ "0" ∨ s.accumulator ≠ none ∨ s.operator ≠ none := by
      by_contra hno
      push_neg at hno
      exact hcl hno
    have e1 : onClear s = clearEntry s := by
      unfold onClear
      rw [if_pos hc]
    rw [e1]
    have hc2 : (clearEntry s).display ≠ "0" ∨ (clearEntry s).accumulator ≠ none ∨
        (clearEntry s).operator ≠ none := by
      rcases hao with h | h
      · exact Or.inr (Or.inl (by simpa [clearEntry] using h))
      · exact Or.inr (Or.inr (by simpa [clearEntry] using h))
    unfold onClear
    rw [if_pos hc2]
    rfl

/-- C1 witness: the clean no-op, the display-only full reset after two
presses, and the surviving-accumulator clear-entry fixed point, each at a
concrete state. -/
theorem clear_context_sensitive_witness :
    onClear initialState = initialState ∧
    onClear (onClear { initialState with display := "5" }) = initialState ∧
    onClear (onClear (run [.digit 5, .op .add])) = onClear (run [.digit 5, .op .add]) :=
  ⟨(clear_context_sensitive initialState).1 (by decide),
   (clear_context_sensitive { initialState with display := "5" }).2.2.1
     (by decide) (by decide) (by decide),
   (clear_context_sensitive (run [.digit 5, .op .add])).2.2.2 (by decide) (by decide)⟩

/-- C2 counterexample: `7`, `÷`, `0`, `=` is not rendered as "∞": the
display string is `String(Infinity) = "Infinity"`, which the formatter
passes through unchanged. -/
theorem divide_by_zero_fmt_cex :
    formatForDisplay (run [.digit 7, .op .div, .digit 0, .eq]).display ≠ "∞" := by
  decide

/-- C2 (amended): dividing by exactly zero yields the positive-infinity
sentinel, not an error — `compute` maps any numerator over a zero
denominator to `posInf` — and `7`, `÷`, `0`, `=` stores the sentinel in the
accumulator with display `String(Infinity) = "Infinity"`, which the Display
Formatter renders unchanged as "Infinity" (not "∞"). -/
theorem divide_by_zero_sentinel :
    (∀ a : JsNum, compute a (.finite 0) .div = .posInf) ∧
    (run [.digit 7, .op .div, .digit 0, .eq]).display = "Infinity" ∧
    (run [.digit 7, .op .div, .digit 0, .eq]).accumulator = some .posInf ∧
    jsNumber (run [.digit 7, .op .div, .digit 0, .eq]).display = .posInf ∧
    formatForDisplay (run [.digit 7, .op .div, .digit 0, .eq]).display = "Infinity" := by
  refine ⟨fun a => rfl, by decide, by decide, by decide, by decide⟩

/-- C3 counterexample: after `7`, `÷`, `0`, `=` the display is "Infinity"
with `waitingForSecond` false, and a digit input appends: the new display is
"Infinity5", not the fresh digit "5". -/
theorem digit_after_infinity_cex :
    (run [.digit 7, .op .div, .digit 0, .eq]).waitingForSecond = false ∧
    (run [.digit 7, .op .div, .digit 0, .eq, .digit 5]).display = "Infinity5" ∧
    (run [.digit 7, .op .div, .digit 0, .eq, .digit 5]).display ≠ "5" := by
  refine ⟨by decide, by decide, by decide⟩

/-- C3 (amended): a digit input starts a fresh number only when
`waitingForSecond` is set (after an operator); when the display holds a
non-finite value ("Infinity" or "NaN") and `waitingForSecond` is false — as
after an equals that produced it — the digit is appended to the non-finite
display string instead. -/
theorem digit_after_nonfinite (s : CalcState) (d : Fin 10) :
    (s.waitingForSecond = true →
      inputDigit d s = { s with display := digitStr d, waitingForSecond := false }) ∧
    (s.waitingForSecond = false → s.display = "Infinity" →
      (inputDigit d s).display = s.display ++ digitStr d) ∧
    (s.waitingForSecond = false → s.display = "NaN" →
      (inputDigit d s).display = s.display ++ digitStr d) := by
  refine ⟨?_, ?_, ?_⟩
  · intro hw
    unfold inputDigit
    rw [if_pos hw]
  · intro hw hd
    unfold inputDigit
    rw [hw, hd]
    rw [if_neg (by decide), if_neg (by decide : ¬ ("Infinity" : String) = "0"),
      if_neg (by decide : ¬ 12 ≤ (stripCommas "Infinity").length)]
  · intro hw hd
    unfold inputDigit
    rw [hw, hd]
    rw [if_neg (by decide), if_neg (by decide : ¬ ("NaN" : String) = "0"),
      if_neg (by decide : ¬ 12 ≤ (stripCommas "NaN").length)]

/-- C3 witness: the fresh path with `waitingForSecond` set, and the append
path at the state reached by `7`, `÷`, `0`, `=`. -/
theorem digit_after_nonfinite_witness :
    inputDigit 5 { initialState with waitingForSecond := true } =
      { { initialState with waitingForSecond := true } with
          display := digitStr 5
          waitingForSecond := false } ∧
    (inputDigit 5 (run [.digit 7, .op .div, .digit 0, .eq])).display =
      (run [.digit 7, .op .div, .digit 0, .eq]).display ++ digitStr 5 :=
  ⟨(digit_after_nonfinite { initialState with waitingForSecond := true } 5).1 rfl,
   (digit_after_nonfinite (run [.digit 7, .op .div, .digit 0, .eq]) 5).2.1
     (by decide) (by decide)⟩

/-- C4 counterexample: eleven digits followed by a sign toggle give the
comma-stripped display "-12345678911" of length 12 though it holds only 11
digits, and the next `digit()` call is a no-op — the cap counts the sign,
not just the digits. -/
theorem digit_cap_sign_cex :
    (run [.digit 1, .digit 2, .digit 3, .digit 4, .digit 5, .digit 6, .digit 7, .digit 8,
        .digit 9, .digit 1, .digit 1, .sign]).display = "-12345678911" ∧
    (("-12345678911" : String).data.filter (fun c => isDigitChar c)).length = 11 ∧
    (run [.digit 1, .digit 2, .digit 3, .digit 4, .digit 5, .digit 6, .digit 7, .digit 8,
        .digit 9, .digit 1, .digit 1, .sign, .digit 2]).display = "-12345678911" := by
  refine ⟨by decide, by decide, by decide⟩

/-- C4 (amended): the cap compares 12 against the length of the
comma-stripped display, which also counts a minus sign and a decimal point:
when that length has reached 12 every further `digit()` call leaves the
state unchanged, and below it the digit is appended (outside the fresh-start
and display-"0" paths). -/
theorem digit_cap (s : CalcState) (d : Fin 10)
    (hw : s.waitingForSecond = false) (h0 : s.display ≠ "0") :
    (12 ≤ (stripCommas s.display).length → inputDigit d s = s) ∧
    ((stripCommas s.display).length < 12 →
      inputDigit d s = { s with display := s.display ++ digitStr d }) := by
  constructor
  · intro hc
    unfold inputDigit
    rw [hw]
    rw [if_neg (by decide), if_neg h0, if_pos hc]
  · intro hc
    unfold inputDigit
    rw [hw]
    rw [if_neg (by decide), if_neg h0, if_neg (not_le.mpr hc)]

/-- C4 witness: a full display refuses a digit and a short display appends
it. -/
theorem digit_cap_witness :
    inputDigit 3 { initialState with display := "123456789012" } =
      { initialState with display := "123456789012" } ∧
    inputDigit 3 { initialState with display := "12345" } =
      { { initialState with display := "12345" } with
          display := ({ initialState with display := "12345" } : CalcState).display ++
            digitStr 3 } :=
  ⟨(digit_cap { initialState with display := "123456789012" } 3
      (by decide) (by decide)).1 (by decide),
   (digit_cap { initialState with display := "12345" } 3
      (by decide) (by decide)).2 (by decide)⟩

theorem ratDiv100_eq_zero_iff (q : ℚ) : ratDiv q 100 = 0 ↔ q = 0 := by
  rw [ratDiv_eq]
  constructor
  · intro h
    rcases div_eq_zero_iff.mp h with h | h
    · exact h
    · norm_num at h
  · intro h
    rw [h]
    simp

theorem ratDiv100_pos_iff (q : ℚ) : 0 < ratDiv q 100 ↔ 0 < q := by
  rw [ratDiv_eq, lt_div_iff₀ (by norm_num : (0:ℚ) < 100)]
  simp

theorem jsDiv_finite100 (q : ℚ) :
    jsDiv (.finite q) (.finite 100) = .finite (ratDiv q 100) := by
  simp only [jsDiv]
  rw [if_neg (by norm_num : ¬ (100:ℚ) = 0)]

theorem jsMul_posInf_finite (q : ℚ) :
    jsMul .posInf (.finite q) = if q = 0 then .nan else if 0 < q then .posInf else .negInf :=
  rfl

theorem jsMul_negInf_finite (q : ℚ) :
    jsMul .negInf (.finite q) = if q = 0 then .nan else if 0 < q then .negInf else .posInf :=
  rfl

theorem jsMulDiv_comm100 (a : JsNum) (q : ℚ) :
    jsDiv (jsMul a (.finite q)) (.finite 100) =
      jsMul a (jsDiv (.finite q) (.finite 100)) := by
  rw [jsDiv_finite100]
  cases a with
  | nan => rfl
  | finite p =>
      rw [show jsMul (.finite p) (.finite q) = .finite (ratMul p q) from rfl,
        jsDiv_finite100,
        show jsMul (.finite p) (.finite (ratDiv q 100)) = .finite (ratMul p (ratDiv q 100))
          from rfl]
      congr 1
      rw [ratDiv_eq, ratMul_eq, ratMul_eq, ratDiv_eq, mul_div_assoc]
  | posInf =>
      rw [jsMul_posInf_finite, jsMul_posInf_finite]
      by_cases hq : q = 0
      · rw [if_pos hq, if_pos ((ratDiv100_eq_zero_iff q).mpr hq)]
        rfl
      · rw [if_neg hq, if_neg (fun h => hq ((ratDiv100_eq_zero_iff q).mp h))]
        by_cases hq2 : 0 < q
        · rw [if_pos hq2, if_pos ((ratDiv100_pos_iff q).mpr hq2)]
          rfl
        · rw [if_neg hq2, if_neg (fun h => hq2 ((ratDiv100_pos_iff q).mp h))]
          rfl
  | negInf =>
      rw [jsMul_negInf_finite, jsMul_negInf_finite]
      by_cases hq : q = 0
      · rw [if_pos hq, if_pos ((ratDiv100_eq_zero_iff q).mpr hq)]
        rfl
      · rw [if_neg hq, if_neg (fun h => hq ((ratDiv100_eq_zero_iff q).mp h))]
        by_cases hq2 : 0 < q
        · rw [if_pos hq2, if_pos ((ratDiv100_pos_iff q).mpr hq2)]
          rfl
        · rw [if_neg hq2, if_neg (fun h => hq2 ((ratDiv100_pos_iff q).mp h))]
          rfl

/-- C7: percent is contextual: with an accumulator and a pending add or
subtract the new display is `accumulator × (rawValue / 100)` (so `100`, `+`,
`10`, `%` shows 10); with a pending multiply or divide, or with no
accumulator or no pending operator, it is `rawValue / 100` (so `100`, `×`,
`10`, `%` shows 0.1); a non-finite display value makes the call a no-op; in
every case only the display field changes. -/
theorem percent_contextual (s : CalcState) :
    ((run [.digit 1, .digit 0, .digit 0, .op .add, .digit 1, .digit 0, .pct]).display
        = "10" ∧
     (run [.digit 1, .digit 0, .digit 0, .op .mul, .digit 1, .digit 0, .pct]).display
        = "0.1") ∧
    ((jsNumber (stripCommas s.display)).isFinite = false → percent s = s) ∧
    (∀ q : ℚ, jsNumber (stripCommas s.display) = .finite q →
      (∀ a, s.accumulator = some a →
        (s.operator = some .add ∨ s.operator = some .sub) →
        percent s =
          { s with display := jsToString (jsMul a (jsDiv (.finite q) (.finite 100))) }) ∧
      (∀ a, s.accumulator = some a →
        (s.operator = some .mul ∨ s.operator = some .div) →
        percent s =
          { s with display := jsToString (jsDiv (.finite q) (.finite 100)) }) ∧
      (s.accumulator = none ∨ s.operator = none →
        percent s =
          { s with display := jsToString (jsDiv (.finite q) (.finite 100)) })) := by
  refine ⟨⟨by decide, by decide⟩, ?_, ?_⟩
  · intro h
    simp only [percent]
    rw [if_pos h]
  · intro q hq
    refine ⟨?_, ?_, ?_⟩
    · intro a ha hop
      simp only [percent, hq]
      rw [if_neg (by simp [JsNum.isFinite]), ha]
      rcases hop with hop | hop <;> rw [hop, ← jsMulDiv_comm100 a q] <;> rfl
    · intro a ha hop
      simp only [percent, hq]
      rw [if_neg (by simp [JsNum.isFinite]), ha]
      rcases hop with hop | hop <;> rw [hop] <;> rfl
    · intro h
      simp only [percent, hq]
      rw [if_neg (by simp [JsNum.isFinite])]
      rcases h with h | h
      · rw [h]
      · rcases hacc : s.accumulator with _ | a
        · rfl
        · rw [h]

/-- C7 witness: the contextual and plain branches at the concrete states
reached by `100`, `+`, `10` and `100`, `×`, `10`. -/
theorem percent_contextual_witness :
    percent (run [.digit 1, .digit 0, .digit 0, .op .add, .digit 1, .digit 0]) =
      { run [.digit 1, .digit 0, .digit 0, .op .add, .digit 1, .digit 0] with
          display := jsToString (jsMul (.finite 100)
            (jsDiv (.finite 10) (.finite 100))) } ∧
    percent (run [.digit 1, .digit 0, .digit 0, .op .mul, .digit 1, .digit 0]) =
      { run [.digit 1, .digit 0, .digit 0, .op .mul, .digit 1, .digit 0] with
          display := jsToString (jsDiv (.finite 10) (.finite 100)) } :=
  ⟨((percent_contextual (run [.digit 1, .digit 0, .digit 0, .op .add, .digit 1, .digit 0])).2.2
      10 (by decide)).1 (.finite 100) (by decide) (Or.inl (by decide)),
   ((percent_contextual (run [.digit 1, .digit 0, .digit 0, .op .mul, .digit 1, .digit 0])).2.2
      10 (by decide)).2.1 (.finite 100) (by decide) (Or.inl (by decide))⟩

end Calculator
